import Mathlib

/-!
Verification development for the message-reconciliation and streaming-response
pipeline of the voice-chat example repository.

Client side (react-vite-ui/src/lib/types.ts, App component):
the transcript reconciler `handleDataReceived`, the outbound send pipeline
`handleSendMessage` / `updateMessageStatus`, and the message data model.

Server side (AiService, nestjs server): sentence extraction
`extractCompleteSentences`, the streaming generator `generateStreamingResponse`,
the retry wrappers, the fallback responses, and the per-room conversation
history store `addToHistory`.

Nondeterministic runtime inputs of the original code (generated ids, current
time, transport metadata, the model's streamed output, and `Math.random()`
draws) are passed in as explicit parameters, so every definition is a pure,
executable function of its inputs.
-/

/-! ### Client data model (types.ts) -/

/-- `ChatMessage.role`. -/
inductive ChatRole where
  | user
  | assistant
  | system
deriving DecidableEq

/-- `ChatMessage.status`. -/
inductive MsgStatus where
  | sending
  | sent
  | failed
  | streaming
deriving DecidableEq

/-- `ChatMessage.delivery`. -/
inductive Delivery where
  | reliable
  | lossy
deriving DecidableEq

/-- One transcript entry, mirroring the `ChatMessage` interface.  Optional
fields of the TypeScript interface are `Option`s. -/
structure ChatMessage where
  id : String
  role : ChatRole
  text : String
  timestamp : Nat
  senderId : Option String
  topic : Option String
  status : Option MsgStatus
  delivery : Option Delivery
deriving DecidableEq

/-- `DataChannelMessage.role` on the wire is `"user" | "ai"`. -/
inductive WireRole where
  | user
  | ai
deriving DecidableEq

/-- The decoded data-channel payload (`DataChannelMessage` interface), as
produced by `parseDataChannelMessage`: `message`, `topic` and `role` are
always present after parsing, the flag fields may be absent. -/
structure DataChannelMessage where
  message : String
  topic : String
  role : WireRole
  timestamp : Option Nat
  identity : Option String
  isFinal : Option Bool
  interim : Option Bool
deriving DecidableEq

/-- LiveKit `DataPacket_Kind` as far as the reconciler looks at it. -/
inductive DataPacketKind where
  | reliable
  | lossy
deriving DecidableEq

/-- The string a `WireRole` value prints as; used by the senderId fallback
`participant?.identity ?? data.identity ?? data.role`. -/
def wireRoleString : WireRole → String
  | .user => "user"
  | .ai => "ai"

/-- JavaScript truthiness of an optional string: `undefined` and `""` are
falsy, every other string is truthy. -/
def strTruthy : Option String → Bool
  | none => false
  | some s => !(s == "")

/-- The candidate entry `incomingMessage` built by `handleDataReceived` for a
`"chat"`-topic event, before the continuation decision.  `newId` is the
freshly generated `generateId()` value and `now` is `Date.now()`. -/
def mkIncomingMessage (data : DataChannelMessage) (participantIdentity : Option String)
    (kind : Option DataPacketKind) (topicOverride : Option String)
    (newId : String) (now : Nat) : ChatMessage :=
  let messageTopic := topicOverride.getD data.topic
  let role : ChatRole := match data.role with | .user => .user | .ai => .assistant
  let senderId := participantIdentity.getD (data.identity.getD (wireRoleString data.role))
  let delivery : Delivery := if kind == some .lossy then .lossy else .reliable
  let hasExplicitInterim := data.interim == some true || data.isFinal == some false
  { id := newId
    role := role
    text := data.message
    timestamp := data.timestamp.getD now
    senderId := some senderId
    topic := some messageTopic
    status := some (if hasExplicitInterim then .streaming else .sent)
    delivery := some delivery }

/-- The transcript reconciler: the `setMessages` update plus topic routing of
`handleDataReceived`.  `data?` is the result of `parseDataChannelMessage`
(`none` when the payload was dropped), `topicOverride` the transport-level
`topic` argument, `newId`/`now` the fresh `generateId()`/`Date.now()` values
(the `"status"` branch goes through `addMessage`, which generates its own id
and timestamp; they are represented by the same parameters).  The
loading-indicator update (`setIsAssistantLoading`) does not touch the list
and is not part of this function's result. -/
def handleDataReceived (data? : Option DataChannelMessage)
    (participantIdentity : Option String) (kind : Option DataPacketKind)
    (topicOverride : Option String) (newId : String) (now : Nat)
    (prev : List ChatMessage) : List ChatMessage :=
  match data? with
  | none => prev
  | some data =>
    let messageTopic := topicOverride.getD data.topic
    let role : ChatRole := match data.role with | .user => .user | .ai => .assistant
    let senderId := participantIdentity.getD (data.identity.getD (wireRoleString data.role))
    if messageTopic == "chat" then
      let hasExplicitInterim := data.interim == some true || data.isFinal == some false
      let hasExplicitFinal := data.interim == some false || data.isFinal == some true
      let hasExplicitFlag := hasExplicitInterim || hasExplicitFinal
      let incomingMessage :=
        mkIncomingMessage data participantIdentity kind topicOverride newId now
      match prev.getLast? with
      | none => [incomingMessage]
      | some lastMessage =>
        let sameSender :=
          if (!(senderId == "")) && strTruthy lastMessage.senderId then
            senderId == lastMessage.senderId.getD ""
          else lastMessage.role == role
        let sameTopic := lastMessage.topic == some messageTopic
        let isTextContinuation := (!(lastMessage.text == "")) &&
          (data.message.startsWith lastMessage.text ||
            lastMessage.text.startsWith data.message)
        let shouldTreatAsInterim := hasExplicitInterim ||
          (!hasExplicitFlag && role == ChatRole.user && sameSender && sameTopic &&
            isTextContinuation)
        if sameSender && sameTopic then
          if shouldTreatAsInterim then
            prev.set (prev.length - 1) { incomingMessage with status := some .streaming }
          else
            let shouldFinalizeStreaming := hasExplicitFinal ||
              (!hasExplicitFlag && lastMessage.status == some MsgStatus.streaming &&
                data.message == lastMessage.text)
            if shouldFinalizeStreaming && lastMessage.status == some MsgStatus.streaming then
              prev.set (prev.length - 1) { incomingMessage with status := some .sent }
            else
              prev ++ [incomingMessage]
        else
          prev ++ [incomingMessage]
    else if messageTopic == "status" then
      prev ++ [{ id := newId, role := .system, text := "Status: " ++ data.message,
                 timestamp := now, senderId := none, topic := none,
                 status := none, delivery := none }]
    else
      prev

/-! ### Outbound send pipeline (types.ts) -/

/-- `updateMessageStatus`: set the status of every entry whose id matches. -/
def updateMessageStatus (messageId : String) (status : MsgStatus)
    (msgs : List ChatMessage) : List ChatMessage :=
  msgs.map fun m => if m.id == messageId then { m with status := some status } else m

/-- The synchronous local effect of `handleSendMessage`: the resulting
transcript list, the surfaced error (`setError` argument), and whether a
publish to the data channel was attempted. -/
structure SendOutcome where
  messages : List ChatMessage
  error : Option String
  publishAttempted : Bool
deriving DecidableEq

/-- `handleSendMessage(text, retryMessageId?)` up to the point where the
asynchronous publish is handed to LiveKit.  `connected` is whether
`clientRef.current?.currentRoom` is non-null; `participantIdentity` is
`config.participantIdentity`; `newId`/`now` are `generateId()`/`Date.now()`.
The asynchronous `.then`/`.catch` status resolution happens after this
function's snapshot and is outside its result. -/
def handleSendMessage (text : String) (retryMessageId : Option String)
    (connected : Bool) (participantIdentity : String) (newId : String) (now : Nat)
    (prev : List ChatMessage) : SendOutcome :=
  let msgs1 := match retryMessageId with
    | some rid => updateMessageStatus rid .sending prev
    | none => prev
  if !connected then
    match retryMessageId with
    | none =>
      { messages := msgs1 ++
          [{ id := newId, role := .user, text := text, timestamp := now,
             senderId := some (if participantIdentity == "" then "user" else participantIdentity),
             topic := some "chat", status := some .failed, delivery := none }]
        error := some "Not connected to room. Cannot send message."
        publishAttempted := false }
    | some rid =>
      { messages := updateMessageStatus rid .failed msgs1
        error := some "Not connected to room. Cannot send message."
        publishAttempted := false }
  else
    let messageId := retryMessageId.getD newId
    let msgs2 := match retryMessageId with
      | none => msgs1 ++
          [{ id := messageId, role := .user, text := text, timestamp := now,
             senderId := some (if participantIdentity == "" then "user" else participantIdentity),
             topic := some "chat", status := some .sending, delivery := none }]
      | some _ => msgs1
    { messages := msgs2, error := none, publishAttempted := true }

/-! ### Fallback prompts (voice-assistant.prompt.ts) -/

/-- The `FALLBACK_RESPONSES` constant. -/
def FALLBACK_RESPONSES : List String :=
  ["I\x27m having trouble understanding. Could you try again?",
   "I couldn\x27t process that. Could you rephrase?",
   "Something went wrong on my end. Please try again."]

/-- `getRandomFallbackResponse`: `FALLBACK_RESPONSES[Math.floor(Math.random()*3)]`.
The random draw is modeled by the parameter `r`; the JavaScript index
`Math.floor(Math.random() * FALLBACK_RESPONSES.length)` ranges over
`{0, 1, 2}`, represented here as `r % 3`. -/
def getRandomFallbackResponse (r : Nat) : String :=
  FALLBACK_RESPONSES.getD (r % 3) ""

/-! ### Sentence extraction (AiService.extractCompleteSentences)

The JavaScript scans the buffer with the global regex `([.!?])(?:\s+|$)`:
a match is a sentence terminator that is immediately followed by a run of
whitespace (consumed greedily into the match) or by the end of the buffer.
For each match the slice from the previous match's end through this match's
end is trimmed and pushed (if non-empty), and the remainder after the last
match's end is returned.  `extractAux` below performs the same scan one
character at a time over the buffer's character list: `skip` is true while
the scanner is inside the whitespace run consumed by the previous match
(i.e. before the regex `lastIndex`), and `seg` holds, in reverse, the
characters seen since the last match's end. -/

/-- The characters the regex class `[.!?]` matches. -/
def isSentenceTerm (c : Char) : Bool :=
  c == '.' || c == '!' || c == '?'

/-- The common whitespace characters of the regex class `\s` (and of
JavaScript's `String.trim`): space, tab, line feed, carriage return,
vertical tab, form feed, and no-break space. -/
def isJsWs (c : Char) : Bool :=
  c == ' ' || c == '\t' || c == '\n' || c == '\r' || c == '\x0b' ||
    c == '\x0c' || c == ' '

/-- JavaScript `String.trim` on a character list: drop whitespace from both
ends. -/
def trimChars (l : List Char) : List Char :=
  ((l.dropWhile isJsWs).reverse.dropWhile isJsWs).reverse

/-- JavaScript `String.trim`. -/
def jsTrim (s : String) : String :=
  String.mk (trimChars s.data)

/-- Whether the regex alternative `(?:\s+|$)` matches at the start of the
given rest of the buffer: true at end-of-buffer or before a whitespace
character. -/
def startsWsOrEnd : List Char → Bool
  | [] => true
  | d :: _ => isJsWs d

/-- The regex-exec loop of `extractCompleteSentences` (see the section
comment): returns the pushed sentences and the remainder after the last
match. -/
def extractAux : Bool → List Char → List Char → List String × List Char
  | _, seg, [] => ([], seg.reverse)
  | skip, seg, c :: rest =>
    if skip && isJsWs c then
      extractAux true seg rest
    else if isSentenceTerm c && startsWsOrEnd rest then
      let sentence := String.mk (trimChars (seg.reverse ++ c :: rest.takeWhile isJsWs))
      let p := extractAux true [] rest
      (if sentence == "" then p.1 else sentence :: p.1, p.2)
    else
      extractAux false (c :: seg) rest

/-- `AiService.extractCompleteSentences`: extracted sentences plus remaining
text. -/
def extractCompleteSentences (buffer : String) : List String × String :=
  let p := extractAux false [] buffer.data
  (p.1, String.mk p.2)

/-! ### Streaming generation (AiService) -/

/-- The observable behavior of one `streamText` attempt: the chunks the
`for await` loop receives, and—if the stream throws midway—the error
message, after which no further chunk is processed. -/
inductive StreamAttempt where
  | success (chunks : List String)
  | failure (chunks : List String) (errMsg : String)
deriving DecidableEq

/-- The chunk-processing loop of `generateStreamingResponse`: feed each chunk
into the sentence buffer, extract complete sentences, emit them, and keep
the remainder (the buffer is only replaced when at least one sentence was
extracted, exactly as in the code).  Returns the emitted sentences and the
final sentence buffer. -/
def processChunks : List String → String → List String × String
  | [], buf => ([], buf)
  | ch :: chs, buf =>
    let buf' := buf ++ ch
    let p := extractCompleteSentences buf'
    let buf'' := if 0 < p.1.length then p.2 else buf'
    let q := processChunks chs buf''
    (p.1 ++ q.1, q.2)

/-- All sentences `generateStreamingResponse` emits for a successfully
completed stream: the per-chunk extractions followed by the trimmed
trailing remainder when it is non-empty. -/
def streamEmits (chunks : List String) : List String :=
  let p := processChunks chunks ""
  let remaining := jsTrim p.2
  if remaining == "" then p.1 else p.1 ++ [remaining]

/-- `AiService.generateStreamingResponse`, as the pair of (sentences passed
to the `onSentence` callback, in order) and (the returned full response, or
the thrown error's message).  `r` models the `Math.random()` draw used by
`getRandomFallbackResponse` in the empty-transcript branch.  History
persistence and logging happen after all emissions and do not affect the
callback sequence or the returned text. -/
def generateStreamingResponse (transcript : String) (att : StreamAttempt)
    (r : Nat) : List String × Except String String :=
  if jsTrim transcript == "" then
    let fallback := getRandomFallbackResponse r
    ([fallback], Except.ok fallback)
  else
    match att with
    | .success chunks => (streamEmits chunks, Except.ok (String.join chunks))
    | .failure chunks msg => ((processChunks chunks "").1, Except.error msg)

/-- `AiService.generateResponse` restricted to its returned text:
empty/whitespace transcript short-circuits to a random fallback without
consulting the model; otherwise the model's outcome (`modelOutcome`) is
returned, errors being wrapped and rethrown. -/
def generateResponse (transcript : String) (modelOutcome : Except String String)
    (r : Nat) : Except String String :=
  if jsTrim transcript == "" then Except.ok (getRandomFallbackResponse r)
  else modelOutcome

/-- `error.message.includes(needle)` on strings. -/
def strIncludes (s needle : String) : Bool :=
  decide (needle.data <:+: s.data)

/-- `AiService.isRetryableError` on the thrown error's message: rate-limit
errors are not retryable, network errors are, everything else defaults to
retryable. -/
def isRetryableError (msg : String) : Bool :=
  if strIncludes msg "rate limit" then false
  else if strIncludes msg "ECONNREFUSED" || strIncludes msg "timeout" then true
  else true

/-- The retry loop of `generateResponseWithRetry`: `oracle i` is the model
outcome of attempt `i`, `rs i` the random draw available to attempt `i`,
`r` the draw used by the post-loop fallback, and `fuel` the number of
attempts still allowed (`maxRetries + 1 - attempt`). -/
def generateResponseWithRetryAux (transcript : String)
    (oracle : Nat → Except String String) (rs : Nat → Nat) (r : Nat) :
    Nat → Nat → String
  | _, 0 => getRandomFallbackResponse r
  | attempt, fuel + 1 =>
    match generateResponse transcript (oracle attempt) (rs attempt) with
    | .ok t => t
    | .error msg =>
      if isRetryableError msg then
        generateResponseWithRetryAux transcript oracle rs r (attempt + 1) fuel
      else
        getRandomFallbackResponse r

/-- `AiService.generateResponseWithRetry` (the code's default `maxRetries`
is 2). -/
def generateResponseWithRetry (transcript : String)
    (oracle : Nat → Except String String) (rs : Nat → Nat) (r : Nat)
    (maxRetries : Nat) : String :=
  generateResponseWithRetryAux transcript oracle rs r 0 (maxRetries + 1)

/-- The retry loop of `generateStreamingResponseWithRetry`: accumulates the
callback emissions of every attempt tried; a retryable failure moves on to
the next attempt, a non-retryable failure breaks, and when attempts run out
the post-loop fallback is emitted once and returned. -/
def generateStreamingResponseWithRetryAux (transcript : String)
    (oracle : Nat → StreamAttempt) (rs : Nat → Nat) (r : Nat) :
    Nat → Nat → List String × String
  | _, 0 =>
    let fallback := getRandomFallbackResponse r
    ([fallback], fallback)
  | attempt, fuel + 1 =>
    let p := generateStreamingResponse transcript (oracle attempt) (rs attempt)
    match p.2 with
    | .ok t => (p.1, t)
    | .error msg =>
      if isRetryableError msg then
        let q := generateStreamingResponseWithRetryAux transcript oracle rs r (attempt + 1) fuel
        (p.1 ++ q.1, q.2)
      else
        let fallback := getRandomFallbackResponse r
        (p.1 ++ [fallback], fallback)

/-- `AiService.generateStreamingResponseWithRetry` (the code's default
`maxRetries` is 2): all callback emissions in order, and the returned text. -/
def generateStreamingResponseWithRetry (transcript : String)
    (oracle : Nat → StreamAttempt) (rs : Nat → Nat) (r : Nat)
    (maxRetries : Nat) : List String × String :=
  generateStreamingResponseWithRetryAux transcript oracle rs r 0 (maxRetries + 1)

/-! ### Conversation history store (AiService.addToHistory) -/

/-- `ConversationMessage.role`. -/
inductive HistRole where
  | user
  | assistant
deriving DecidableEq

/-- A message in the per-room conversation history. -/
structure ConversationMessage where
  role : HistRole
  content : String
  timestamp : Nat
deriving DecidableEq

/-- `SessionHistory`, with `Date` values as milliseconds. -/
structure SessionHistory where
  messages : List ConversationMessage
  createdAt : Nat
  lastUpdated : Nat
deriving DecidableEq

/-- `AiService.maxHistoryMessages`. -/
def maxHistoryMessages : Nat := 20

/-- `AiService.addToHistory` for one room: lazily create the session, push
the new message, and when the stored count exceeds the cap keep only
`slice(-maxHistoryMessages / 2)`, i.e. the most recent half. -/
def addToHistory (session : Option SessionHistory) (role : HistRole)
    (content : String) (now : Nat) : SessionHistory :=
  let s := session.getD { messages := [], createdAt := now, lastUpdated := now }
  let pushed := s.messages ++ [{ role := role, content := content, timestamp := now }]
  let pruned :=
    if maxHistoryMessages < pushed.length then
      pushed.drop (pushed.length - maxHistoryMessages / 2)
    else pushed
  { s with messages := pruned, lastUpdated := now }

/-- Run a sequence of `addToHistory` appends for one room, starting from no
session (each element is role, content, and the `Date.now()` value of that
append). -/
def runHistory (ops : List (HistRole × String × Nat)) : Option SessionHistory :=
  ops.foldl (fun s op => some (addToHistory s op.1 op.2.1 op.2.2)) none

/-- The stored message list of an optional session. -/
def histMessages : Option SessionHistory → List ConversationMessage
  | none => []
  | some h => h.messages

/-- The conversation message a history append operation produces. -/
def opMessage (op : HistRole × String × Nat) : ConversationMessage :=
  { role := op.1, content := op.2.1, timestamp := op.2.2 }

/-! ### Specification-side sentence segmentation (for the refinement claim)

The definitions in this section are written from the specification's wording,
not from the code, and exist to be compared with `extractAux`/`streamEmits`
above. -/

/-- Modelled from the spec: "scan the accumulating buffer for
sentence-terminating punctuation (`.`, `!`, `?`) followed by whitespace or
end-of-buffer; every time a new terminator is found, cut and emit everything
from the last cut point through the terminator (trimmed) as one sentence via
the callback, then advance the cut point."  `seg` is the text since the last
cut point (in order); the cut point advances past the terminator and the
whitespace that followed it.  Returns the emitted sentences and the text
after the last cut point. -/
def specScan : List Char → List Char → List String × List Char
  | seg, [] => ([], seg)
  | seg, c :: rest =>
    if isSentenceTerm c && startsWsOrEnd rest then
      let p := specScan [] (rest.dropWhile isJsWs)
      (String.mk (trimChars (seg ++ [c])) :: p.1, p.2)
    else
      specScan (seg ++ [c]) rest
termination_by _ l => l.length
decreasing_by
  · have := (List.dropWhile_sublist (l := rest) isJsWs).length_le
    simp only [List.length_cons]
    omega
  · simp

/-- Modelled from the spec: the accumulating buffer grows chunk by chunk and
is scanned after each chunk; the remainder after the last cut point is
carried into the next chunk. -/
def specProcess : List String → List Char → List String × List Char
  | [], buf => ([], buf)
  | ch :: chs, buf =>
    let p := specScan [] (buf ++ ch.data)
    let q := specProcess chs p.2
    (p.1 ++ q.1, q.2)

/-- Modelled from the spec: all sentences emitted for a chunk stream — the
per-chunk cuts in order, then "any trailing unterminated remainder is
emitted once, trimmed, after the underlying stream ends, provided it is
non-empty." -/
def specStreamEmits (chunks : List String) : List String :=
  let p := specProcess chunks []
  let r := String.mk (trimChars p.2)
  if r == "" then p.1 else p.1 ++ [r]

/-! ### General helper lemmas -/

/-- Replacing the last element of a non-empty list is the same as dropping
the last element and appending the replacement. -/
theorem list_set_last {α : Type} (l : List α) (a : α) (h : l ≠ []) :
    l.set (l.length - 1) a = l.dropLast ++ [a] := by
  induction l with
  | nil => exact absurd rfl h
  | cons x t ih =>
    cases t with
    | nil => rfl
    | cons y t' =>
      have ihy := ih (by simp)
      simp only [List.length_cons, Nat.add_sub_cancel] at ihy
      simp only [List.length_cons, Nat.add_sub_cancel, List.set_cons_succ,
        List.dropLast_cons₂, List.cons_append, ihy]

/-- A suffix stays a suffix after appending the same element to both lists. -/
theorem suffix_append_singleton {α : Type} {l L : List α} (h : l <:+ L) (a : α) :
    l ++ [a] <:+ L ++ [a] := by
  obtain ⟨p, hp⟩ := h
  exact ⟨p, by rw [← hp, List.append_assoc]⟩

/-! ### Conversation history lemmas (claim C6) -/

/-- Unfolding `runHistory` over a final append. -/
theorem runHistory_append (ops : List (HistRole × String × Nat))
    (op : HistRole × String × Nat) :
    runHistory (ops ++ [op]) = some (addToHistory (runHistory ops) op.1 op.2.1 op.2.2) := by
  simp [runHistory, List.foldl_append]

/-- The stored messages after one append, in terms of the prior messages. -/
theorem addToHistory_messages (s : Option SessionHistory) (role : HistRole)
    (content : String) (now : Nat) :
    (addToHistory s role content now).messages =
      (if maxHistoryMessages < (histMessages s).length + 1 then
        (histMessages s ++ [opMessage (role, content, now)]).drop
          ((histMessages s).length + 1 - maxHistoryMessages / 2)
      else histMessages s ++ [opMessage (role, content, now)]) := by
  cases s <;> simp [addToHistory, histMessages, opMessage]

/-- The history invariant: bounded length and suffix of everything appended. -/
theorem runHistory_invariant (ops : List (HistRole × String × Nat)) :
    (histMessages (runHistory ops)).length ≤ maxHistoryMessages ∧
      histMessages (runHistory ops) <:+ ops.map opMessage := by
  induction ops using List.reverseRecOn with
  | nil => exact ⟨by simp [runHistory, histMessages, maxHistoryMessages], ⟨[], rfl⟩⟩
  | append_singleton l a ih =>
    obtain ⟨ihLen, ihSuf⟩ := ih
    rw [runHistory_append]
    have hmsg : histMessages (some (addToHistory (runHistory l) a.1 a.2.1 a.2.2)) =
        (addToHistory (runHistory l) a.1 a.2.1 a.2.2).messages := rfl
    rw [hmsg, addToHistory_messages]
    have hsufPush : histMessages (runHistory l) ++ [opMessage a] <:+ (l ++ [a]).map opMessage := by
      rw [List.map_append]
      exact suffix_append_singleton ihSuf (opMessage a)
    by_cases hover : maxHistoryMessages < (histMessages (runHistory l)).length + 1
    · rw [if_pos hover]
      constructor
      · simp only [List.length_drop, List.length_append, List.length_cons,
          List.length_nil]
        simp [maxHistoryMessages] at *
        omega
      · exact (List.drop_suffix _ _).trans hsufPush
    · rw [if_neg hover]
      constructor
      · simp only [List.length_append, List.length_cons, List.length_nil]
        omega
      · exact hsufPush

/-- C6: for every room and sequence of appends to the conversation history
store, the stored count never exceeds the cap of 20 and the stored sequence
is an in-order suffix of everything appended; when an append would push the
count past the cap, only the most recent half (10 messages) is retained. -/
theorem c6_history_bound (ops : List (HistRole × String × Nat))
    (op : HistRole × String × Nat) :
    (histMessages (runHistory ops)).length ≤ maxHistoryMessages ∧
      histMessages (runHistory ops) <:+ ops.map opMessage ∧
      (histMessages (runHistory (ops ++ [op]))).length =
        (if maxHistoryMessages < (histMessages (runHistory ops)).length + 1 then
          maxHistoryMessages / 2
        else (histMessages (runHistory ops)).length + 1) := by
  obtain ⟨hLen, hSuf⟩ := runHistory_invariant ops
  refine ⟨hLen, hSuf, ?_⟩
  rw [runHistory_append]
  have hmsg : histMessages (some (addToHistory (runHistory ops) op.1 op.2.1 op.2.2)) =
      (addToHistory (runHistory ops) op.1 op.2.1 op.2.2).messages := rfl
  rw [hmsg, addToHistory_messages]
  by_cases hover : maxHistoryMessages < (histMessages (runHistory ops)).length + 1
  · rw [if_pos hover, if_pos hover]
    simp only [List.length_drop, List.length_append, List.length_cons, List.length_nil]
    simp [maxHistoryMessages] at *
    omega
  · rw [if_neg hover, if_neg hover]
    simp

/-! ### Send pipeline lemmas (claim C8) -/

/-- Two successive status updates on the same id collapse to the second. -/
theorem updateMessageStatus_twice (rid : String) (st1 st2 : MsgStatus)
    (msgs : List ChatMessage) :
    updateMessageStatus rid st2 (updateMessageStatus rid st1 msgs) =
      updateMessageStatus rid st2 msgs := by
  unfold updateMessageStatus
  rw [List.map_map]
  refine List.map_congr_left fun m _ => ?_
  by_cases h : m.id = rid <;> simp [h]

/-- Entries whose id differs from the updated one are untouched. -/
theorem mem_updateMessageStatus_of_ne {m : ChatMessage} {msgs : List ChatMessage}
    (hm : m ∈ msgs) (rid : String) (st : MsgStatus) (h : (m.id == rid) = false) :
    m ∈ updateMessageStatus rid st msgs := by
  refine List.mem_map.mpr ⟨m, hm, ?_⟩
  simp [h]

/-- Every entry of the updated list that carries the updated id has the new
status. -/
theorem updateMessageStatus_status {m : ChatMessage} {msgs : List ChatMessage}
    (rid : String) (st : MsgStatus)
    (hm : m ∈ updateMessageStatus rid st msgs) (h : (m.id == rid) = true) :
    m.status = some st := by
  obtain ⟨m₀, _, hEq⟩ := List.mem_map.mp hm
  by_cases h₀ : m₀.id == rid
  · rw [if_pos h₀] at hEq
    rw [← hEq]
  · rw [if_neg h₀] at hEq
    rw [← hEq] at h
    exact absurd h (by simp_all)

/-- C8: invoking send while the room is not connected surfaces the
connectivity error, attempts no publish, and marks exactly the affected
entry (the newly created one, or the entry named by `retryMessageId`)
`failed`, leaving all other entries unchanged. -/
theorem c8_send_disconnected (text : String) (retryMessageId : Option String)
    (participantIdentity : String) (newId : String) (now : Nat)
    (prev : List ChatMessage) :
    (handleSendMessage text retryMessageId false participantIdentity newId now prev).error =
      some "Not connected to room. Cannot send message." ∧
    (handleSendMessage text retryMessageId false participantIdentity newId now prev).publishAttempted =
      false ∧
    (retryMessageId = none →
      (handleSendMessage text retryMessageId false participantIdentity newId now prev).messages =
        prev ++
          [{ id := newId, role := .user, text := text, timestamp := now,
             senderId := some (if participantIdentity == "" then "user" else participantIdentity),
             topic := some "chat", status := some .failed, delivery := none }]) ∧
    (∀ rid, retryMessageId = some rid →
      (handleSendMessage text retryMessageId false participantIdentity newId now prev).messages =
        updateMessageStatus rid .failed prev ∧
      (∀ m ∈ prev, (m.id == rid) = false →
        m ∈ (handleSendMessage text retryMessageId false participantIdentity newId now prev).messages) ∧
      (∀ m ∈ (handleSendMessage text retryMessageId false participantIdentity newId now prev).messages,
        (m.id == rid) = true → m.status = some MsgStatus.failed)) := by
  cases retryMessageId with
  | none =>
    exact ⟨rfl, rfl, fun _ => rfl, fun rid h => absurd h (by simp)⟩
  | some rid =>
    have hmsgs : (handleSendMessage text (some rid) false participantIdentity newId now prev).messages =
        updateMessageStatus rid .failed prev :=
      updateMessageStatus_twice rid .sending .failed prev
    refine ⟨rfl, rfl, fun h => absurd h (by simp), fun rid' h => ?_⟩
    have hr : rid = rid' := Option.some.inj h
    subst hr
    refine ⟨hmsgs, fun m hm hne => ?_, fun m hm hid => ?_⟩
    · rw [hmsgs]
      exact mem_updateMessageStatus_of_ne hm rid .failed hne
    · rw [hmsgs] at hm
      exact updateMessageStatus_status rid .failed hm hid

/-- Witness for C8 at a concrete retried entry. -/
theorem c8_send_disconnected_witness :
    (handleSendMessage "hello" (some "m1") false "alice" "fresh" 7
        [{ id := "m1", role := .user, text := "hello", timestamp := 1,
           senderId := some "alice", topic := some "chat",
           status := some .failed, delivery := none }]).messages =
      updateMessageStatus "m1" .failed
        [{ id := "m1", role := .user, text := "hello", timestamp := 1,
           senderId := some "alice", topic := some "chat",
           status := some .failed, delivery := none }] :=
  ((c8_send_disconnected "hello" (some "m1") "alice" "fresh" 7
      [{ id := "m1", role := .user, text := "hello", timestamp := 1,
         senderId := some "alice", topic := some "chat",
         status := some .failed, delivery := none }]).2.2.2 "m1" rfl).1

/-! ### Reconciler shape (claim C7) -/

/-- C7: every inbound channel event either leaves the transcript unchanged
(dropped payload or discarded topic), appends exactly one entry (new chat
entry or synthetic status entry), or replaces only the last entry; no entry
other than the last is ever mutated by inbound traffic. -/
theorem c7_inbound_step_shape (data? : Option DataChannelMessage)
    (pid : Option String) (kind : Option DataPacketKind) (topicO : Option String)
    (newId : String) (now : Nat) (prev : List ChatMessage) :
    handleDataReceived data? pid kind topicO newId now prev = prev ∨
    (∃ m, handleDataReceived data? pid kind topicO newId now prev = prev ++ [m]) ∨
    (prev ≠ [] ∧ ∃ m, handleDataReceived data? pid kind topicO newId now prev = prev.dropLast ++ [m]) := by
  cases data? with
  | none => exact Or.inl rfl
  | some data =>
    simp only [handleDataReceived]
    rcases hL : prev.getLast? with _ | last
    · have hp : prev = [] := List.getLast?_eq_none_iff.mp hL
      subst hp
      simp only [List.getLast?_nil]
      repeat' split
      all_goals first
        | exact Or.inl rfl
        | exact Or.inr (Or.inl ⟨_, rfl⟩)
    · have hne : prev ≠ [] := by intro h; subst h; simp at hL
      simp only [hL]
      repeat' split
      all_goals first
        | exact Or.inl rfl
        | exact Or.inr (Or.inl ⟨_, rfl⟩)
        | exact Or.inr (Or.inr ⟨hne, _, list_set_last prev _ hne⟩)

/-! ### Continuation merge (claim C2) -/

/-- C2: from an empty transcript, the inbound sequence
`{message:"Hel", interim:true}`, `{message:"Hello", interim:true}`,
`{message:"Hello world", isFinal:true}`, all on topic `"chat"` and from the
same sender, yields exactly one entry with text `"Hello world"` and status
`sent` — for every sender identity, wire role, and choice of generated ids
and timestamps. -/
theorem c2_continuation_merge (w : WireRole) (s i1 i2 i3 : String) (t1 t2 t3 : Nat) :
    handleDataReceived
      (some { message := "Hello world", topic := "chat", role := w, timestamp := none,
              identity := none, isFinal := some true, interim := none })
      (some s) none none i3 t3
      (handleDataReceived
        (some { message := "Hello", topic := "chat", role := w, timestamp := none,
                identity := none, isFinal := none, interim := some true })
        (some s) none none i2 t2
        (handleDataReceived
          (some { message := "Hel", topic := "chat", role := w, timestamp := none,
                  identity := none, isFinal := none, interim := some true })
          (some s) none none i1 t1 [])) =
    [{ id := i3,
       role := match w with | .user => ChatRole.user | .ai => ChatRole.assistant,
       text := "Hello world", timestamp := t3, senderId := some s,
       topic := some "chat", status := some MsgStatus.sent,
       delivery := some Delivery.reliable }] := by
  cases w <;> by_cases hs : s = "" <;>
    simp [handleDataReceived, mkIncomingMessage, wireRoleString, strTruthy, hs]

/-! ### Finalization is not idempotent (claim C1)

Feeding the same `isFinal:true` message a second time after the interim has
been finalized does *not* merge again: the finalize branch only replaces the
last entry while its status is still `streaming`, and the first final
message set it to `sent`, so the second one is appended as a new entry. -/

/-- C1 counterexample: an interim `"Hello"` followed by the same
`isFinal:true` `"Hello"` fed twice leaves the transcript with two entries,
both with status `sent` — not exactly one finalized entry. -/
theorem c1_counterexample :
    (let im : DataChannelMessage :=
      { message := "Hello", topic := "chat", role := .user, timestamp := none,
        identity := some "alice", isFinal := none, interim := some true };
    let fm : DataChannelMessage :=
      { message := "Hello", topic := "chat", role := .user, timestamp := none,
        identity := some "alice", isFinal := some true, interim := none };
    let res := handleDataReceived (some fm) none none none "id3" 3
      (handleDataReceived (some fm) none none none "id2" 2
        (handleDataReceived (some im) none none none "id1" 1 []));
    res.length = 2 ∧ (res.filter fun m => m.status == some MsgStatus.sent).length = 2) := by
  decide

/-- C1 amended: with the transcript's last entry still streaming and
matching sender/topic, an `isFinal:true` message replaces it with the
candidate entry, whose status is `sent`, keeping exactly one entry for the
utterance; feeding the same message a second time then appends a second
`sent` entry instead of merging. -/
theorem c1_amended (msg : DataChannelMessage) (s : String) (kind : Option DataPacketKind)
    (id1 id2 : String) (t1 t2 : Nat) (init : List ChatMessage) (last : ChatMessage)
    (hs : s ≠ "") (htop : msg.topic = "chat") (hfin : msg.isFinal = some true)
    (hint : msg.interim = none) (htext : last.text = msg.message)
    (hsid : last.senderId = some s) (hltop : last.topic = some "chat")
    (hst : last.status = some MsgStatus.streaming) :
    (mkIncomingMessage msg (some s) kind none id1 t1).status = some MsgStatus.sent ∧
    handleDataReceived (some msg) (some s) kind none id1 t1 (init ++ [last]) =
      init ++ [mkIncomingMessage msg (some s) kind none id1 t1] ∧
    handleDataReceived (some msg) (some s) kind none id2 t2
        (init ++ [mkIncomingMessage msg (some s) kind none id1 t1]) =
      init ++ [mkIncomingMessage msg (some s) kind none id1 t1,
               mkIncomingMessage msg (some s) kind none id2 t2] := by
  have hset : ∀ (y x : ChatMessage),
      (init ++ [y]).set ((init ++ [y]).length - 1) x = init ++ [x] := by
    intro y x
    rw [list_set_last _ _ (by simp), List.dropLast_concat]
  have hstat : (mkIncomingMessage msg (some s) kind none id1 t1).status = some MsgStatus.sent := by
    simp [mkIncomingMessage, hfin, hint]
  refine ⟨hstat, ?_, ?_⟩
  · simp [handleDataReceived, List.getLast?_concat, hs, htop, hfin, hint, htext,
      hsid, hltop, hst, hset, mkIncomingMessage, strTruthy]
  · simp [handleDataReceived, List.getLast?_concat, hs, htop, hfin, hint,
      hstat, hset, mkIncomingMessage, strTruthy]

/-- Witness for C1's amended statement at a concrete finalized entry. -/
theorem c1_amended_witness :
    handleDataReceived
      (some { message := "Hello", topic := "chat", role := .user, timestamp := none,
              identity := some "alice", isFinal := some true, interim := none })
      (some "alice") none none "id2" 2
      ([] ++ [mkIncomingMessage
        { message := "Hello", topic := "chat", role := .user, timestamp := none,
          identity := some "alice", isFinal := some true, interim := none }
        (some "alice") none none "id1" 1]) =
    [] ++ [mkIncomingMessage
             { message := "Hello", topic := "chat", role := .user, timestamp := none,
               identity := some "alice", isFinal := some true, interim := none }
             (some "alice") none none "id1" 1,
           mkIncomingMessage
             { message := "Hello", topic := "chat", role := .user, timestamp := none,
               identity := some "alice", isFinal := some true, interim := none }
             (some "alice") none none "id2" 2] :=
  (c1_amended
    { message := "Hello", topic := "chat", role := .user, timestamp := none,
      identity := some "alice", isFinal := some true, interim := none }
    "alice" none "id1" "id2" 1 2 []
    { id := "id0", role := .user, text := "Hello", timestamp := 0,
      senderId := some "alice", topic := some "chat",
      status := some .streaming, delivery := some .reliable }
    (by decide) rfl rfl rfl rfl rfl rfl rfl).2.2

/-! ### Merge branches replace every field (claim C10) -/

/-- On a `"chat"`-topic event the reconciler either appends the candidate
entry or replaces the last entry by the candidate with its status forced to
`streaming` (interim branch) or `sent` (finalize branch): the object spread
`{...lastMessage, ...incomingMessage, status}` overwrites every field,
because the candidate defines them all. -/
theorem hdr_chat_cases (data : DataChannelMessage)
    (pid : Option String) (kind : Option DataPacketKind) (topicO : Option String)
    (newId : String) (now : Nat) (prev : List ChatMessage)
    (hchat : (topicO.getD data.topic == "chat") = true) :
    handleDataReceived (some data) pid kind topicO newId now prev =
      prev ++ [mkIncomingMessage data pid kind topicO newId now] ∨
    (prev ≠ [] ∧
      (handleDataReceived (some data) pid kind topicO newId now prev =
        prev.dropLast ++
          [{ mkIncomingMessage data pid kind topicO newId now with status := some .streaming }] ∨
       handleDataReceived (some data) pid kind topicO newId now prev =
        prev.dropLast ++
          [{ mkIncomingMessage data pid kind topicO newId now with status := some .sent }])) := by
  simp only [handleDataReceived, hchat, if_true]
  rcases hL : prev.getLast? with _ | last
  · have hp : prev = [] := List.getLast?_eq_none_iff.mp hL
    subst hp
    exact Or.inl rfl
  · have hne : prev ≠ [] := by intro h; subst h; simp at hL
    simp only [hL]
    repeat' split
    all_goals first
      | exact Or.inl rfl
      | exact Or.inr ⟨hne, Or.inl (list_set_last prev _ hne)⟩
      | exact Or.inr ⟨hne, Or.inr (list_set_last prev _ hne)⟩

/-- C10: whenever a chat event is merged into the last entry (the result has
the same length as the prior list), the stored entry is exactly the incoming
candidate — fresh id, timestamp, senderId, delivery and all — with only the
status forced to `streaming` or `sent`; the original entry's id is not
preserved. -/
theorem c10_merge_replaces_fields (data : DataChannelMessage)
    (pid : Option String) (kind : Option DataPacketKind) (topicO : Option String)
    (newId : String) (now : Nat) (prev : List ChatMessage)
    (_hne : prev ≠ [])
    (hchat : topicO.getD data.topic = "chat")
    (hlen : (handleDataReceived (some data) pid kind topicO newId now prev).length = prev.length) :
    ∃ st, (st = MsgStatus.streaming ∨ st = MsgStatus.sent) ∧
      handleDataReceived (some data) pid kind topicO newId now prev =
        prev.dropLast ++
          [{ mkIncomingMessage data pid kind topicO newId now with status := some st }] ∧
      (mkIncomingMessage data pid kind topicO newId now).id = newId := by
  have hchat' : ((topicO.getD data.topic) == "chat") = true := by simp [hchat]
  rcases hdr_chat_cases data pid kind topicO newId now prev hchat' with h | ⟨_, h | h⟩
  · rw [h] at hlen
    simp at hlen
  · exact ⟨.streaming, Or.inl rfl, h, rfl⟩
  · exact ⟨.sent, Or.inr rfl, h, rfl⟩

/-- Witness for C10 at a concrete interim continuation. -/
theorem c10_merge_replaces_fields_witness :
    ∃ st, (st = MsgStatus.streaming ∨ st = MsgStatus.sent) ∧
      handleDataReceived
        (some { message := "Hello", topic := "chat", role := .user, timestamp := none,
                identity := some "alice", isFinal := none, interim := some true })
        none none none "id1" 5
        [{ id := "id0", role := .user, text := "Hel", timestamp := 0,
           senderId := some "alice", topic := some "chat",
           status := some .streaming, delivery := some .reliable }] =
      [{ id := "id0", role := .user, text := "Hel", timestamp := 0,
         senderId := some "alice", topic := some "chat",
         status := some .streaming, delivery := some .reliable }].dropLast ++
        [{ mkIncomingMessage
             { message := "Hello", topic := "chat", role := .user, timestamp := none,
               identity := some "alice", isFinal := none, interim := some true }
             none none none "id1" 5 with status := some st }] ∧
      (mkIncomingMessage
        { message := "Hello", topic := "chat", role := .user, timestamp := none,
          identity := some "alice", isFinal := none, interim := some true }
        none none none "id1" 5).id = "id1" :=
  c10_merge_replaces_fields
    { message := "Hello", topic := "chat", role := .user, timestamp := none,
      identity := some "alice", isFinal := none, interim := some true }
    none none none "id1" 5
    [{ id := "id0", role := .user, text := "Hel", timestamp := 0,
       senderId := some "alice", topic := some "chat",
       status := some .streaming, delivery := some .reliable }]
    (by decide) rfl (by decide)

/-! ### Fallback and retry lemmas (claims C4, C5) -/

/-- Every random draw selects one of the three fallback responses, all of
which are non-empty and not whitespace-only. -/
theorem getRandomFallbackResponse_cases (r : Nat) :
    getRandomFallbackResponse r ∈ FALLBACK_RESPONSES ∧
    getRandomFallbackResponse r ≠ "" ∧
    jsTrim (getRandomFallbackResponse r) ≠ "" := by
  have h : r % 3 = 0 ∨ r % 3 = 1 ∨ r % 3 = 2 := by omega
  rcases h with h | h | h <;> simp only [getRandomFallbackResponse, h] <;> decide

/-- An error whose message does not mention a rate limit is classified
retryable. -/
theorem isRetryableError_of_no_rate_limit {msg : String}
    (h : strIncludes msg "rate limit" = false) : isRetryableError msg = true := by
  simp [isRetryableError, h]

/-- If every attempt errors retryably, the non-streaming retry loop ends in
the post-loop fallback, for any remaining fuel and starting attempt. -/
theorem genRetryAux_allFail (transcript : String) (oracle : Nat → Except String String)
    (rs : Nat → Nat) (r : Nat)
    (htr : jsTrim transcript ≠ "")
    (h : ∀ i, ∃ msg, oracle i = .error msg ∧ isRetryableError msg = true) :
    ∀ fuel attempt, generateResponseWithRetryAux transcript oracle rs r attempt fuel =
      getRandomFallbackResponse r := by
  intro fuel
  induction fuel with
  | zero => intro attempt; rfl
  | succ n ih =>
    intro attempt
    obtain ⟨msg, hmsg, hret⟩ := h attempt
    simp [generateResponseWithRetryAux, generateResponse, htr, hmsg, hret, ih]

/-- If every attempt fails retryably, the streaming retry loop emits the
partial sentences of the attempts and then exactly one final fallback, which
it also returns. -/
theorem genStreamRetryAux_allFail (transcript : String) (oracle : Nat → StreamAttempt)
    (rs : Nat → Nat) (r : Nat)
    (htr : jsTrim transcript ≠ "")
    (h : ∀ i, ∃ chunks msg, oracle i = .failure chunks msg ∧ isRetryableError msg = true) :
    ∀ fuel attempt, ∃ pre,
      generateStreamingResponseWithRetryAux transcript oracle rs r attempt fuel =
        (pre ++ [getRandomFallbackResponse r], getRandomFallbackResponse r) := by
  intro fuel
  induction fuel with
  | zero => intro attempt; exact ⟨[], rfl⟩
  | succ n ih =>
    intro attempt
    obtain ⟨chunks, msg, hmsg, hret⟩ := h attempt
    obtain ⟨pre, hpre⟩ := ih (attempt + 1)
    refine ⟨(processChunks chunks "").1 ++ pre, ?_⟩
    simp [generateStreamingResponseWithRetryAux, generateStreamingResponse, htr,
      hmsg, hret, hpre]

/-- C4: when every model attempt throws a non-rate-limit error, the
with-retry entry points never propagate an error: the non-streaming variant
returns a (non-empty) fallback response, and the streaming variant's
callback sequence ends with exactly one emitted fallback sentence — so the
callback fires at least once — which is also the returned text.  (Stated for
every transcript; in particular for the claim's non-empty ones.) -/
theorem c4_fallback_guarantee (transcript : String)
    (oracleS : Nat → StreamAttempt) (oracleN : Nat → Except String String)
    (rs : Nat → Nat) (r : Nat) (maxRetries : Nat)
    (hS : ∀ i, ∃ chunks msg, oracleS i = .failure chunks msg ∧
        strIncludes msg "rate limit" = false)
    (hN : ∀ i, ∃ msg, oracleN i = .error msg ∧ strIncludes msg "rate limit" = false) :
    (∃ k, generateResponseWithRetry transcript oracleN rs r maxRetries =
        getRandomFallbackResponse k) ∧
    generateResponseWithRetry transcript oracleN rs r maxRetries ≠ "" ∧
    (∃ k pre,
      (generateStreamingResponseWithRetry transcript oracleS rs r maxRetries).2 =
        getRandomFallbackResponse k ∧
      (generateStreamingResponseWithRetry transcript oracleS rs r maxRetries).1 =
        pre ++ [getRandomFallbackResponse k] ∧
      (generateStreamingResponseWithRetry transcript oracleS rs r maxRetries).1 ≠ []) := by
  by_cases hjt : jsTrim transcript = ""
  · have hn : generateResponseWithRetry transcript oracleN rs r maxRetries =
        getRandomFallbackResponse (rs 0) := by
      simp [generateResponseWithRetry, generateResponseWithRetryAux, generateResponse, hjt]
    have hs : generateStreamingResponseWithRetry transcript oracleS rs r maxRetries =
        ([getRandomFallbackResponse (rs 0)], getRandomFallbackResponse (rs 0)) := by
      simp [generateStreamingResponseWithRetry, generateStreamingResponseWithRetryAux,
        generateStreamingResponse, hjt]
    refine ⟨⟨rs 0, hn⟩, hn ▸ (getRandomFallbackResponse_cases (rs 0)).2.1, rs 0, [], ?_, ?_, ?_⟩ <;>
      simp [hs]
  · have hn : generateResponseWithRetry transcript oracleN rs r maxRetries =
        getRandomFallbackResponse r :=
      genRetryAux_allFail transcript oracleN rs r hjt
        (fun i => by obtain ⟨msg, h1, h2⟩ := hN i
                     exact ⟨msg, h1, isRetryableError_of_no_rate_limit h2⟩)
        (maxRetries + 1) 0
    obtain ⟨pre, hpre⟩ := genStreamRetryAux_allFail transcript oracleS rs r hjt
      (fun i => by obtain ⟨chunks, msg, h1, h2⟩ := hS i
                   exact ⟨chunks, msg, h1, isRetryableError_of_no_rate_limit h2⟩)
      (maxRetries + 1) 0
    refine ⟨⟨r, hn⟩, hn ▸ (getRandomFallbackResponse_cases r).2.1, r, pre, ?_, ?_, ?_⟩ <;>
      simp [generateStreamingResponseWithRetry, hpre]

/-- Witness for C4 with a model that always throws `"boom"`. -/
theorem c4_fallback_guarantee_witness :
    (∃ k, generateResponseWithRetry "hi" (fun _ => .error "boom") (fun i => i) 0 2 =
        getRandomFallbackResponse k) ∧
    generateResponseWithRetry "hi" (fun _ => .error "boom") (fun i => i) 0 2 ≠ "" ∧
    (∃ k pre,
      (generateStreamingResponseWithRetry "hi" (fun _ => .failure [] "boom") (fun i => i) 0 2).2 =
        getRandomFallbackResponse k ∧
      (generateStreamingResponseWithRetry "hi" (fun _ => .failure [] "boom") (fun i => i) 0 2).1 =
        pre ++ [getRandomFallbackResponse k] ∧
      (generateStreamingResponseWithRetry "hi" (fun _ => .failure [] "boom") (fun i => i) 0 2).1 ≠ []) :=
  c4_fallback_guarantee "hi" (fun _ => .failure [] "boom") (fun _ => .error "boom") (fun i => i) 0 2
    (fun _ => ⟨[], "boom", rfl, by decide⟩)
    (fun _ => ⟨"boom", rfl, by decide⟩)

/-! ### Empty-transcript short-circuit (claim C5)

The short-circuit itself holds, but the chosen fallback line is *not*
determined by the input: `getRandomFallbackResponse` draws with
`Math.random()`, so two runs on the identical input can return different
lines. -/

/-- C5 counterexample: on the identical empty-transcript input, two runs
differing only in the random draw invoke the callback with different
fallback lines, refuting "determined by the input alone (the same on every
run)". -/
theorem c5_counterexample :
    (generateStreamingResponse "" (.success []) 0).1 ≠
      (generateStreamingResponse "" (.success []) 1).1 := by
  decide

/-- C5 amended: for every empty or whitespace-only transcript the generator
never consults the model (the result is the same for every attempt
behavior), invokes the callback exactly once with a fallback line drawn at
random from the fixed fallback list — not determined by the input — and
returns that same line immediately; the non-streaming variant returns the
drawn line likewise. -/
theorem c5_amended (transcript : String) (att att2 : StreamAttempt)
    (mo : Except String String) (r : Nat) (h : jsTrim transcript = "") :
    generateStreamingResponse transcript att r =
      ([getRandomFallbackResponse r], Except.ok (getRandomFallbackResponse r)) ∧
    generateStreamingResponse transcript att r = generateStreamingResponse transcript att2 r ∧
    generateResponse transcript mo r = Except.ok (getRandomFallbackResponse r) ∧
    getRandomFallbackResponse r ∈ FALLBACK_RESPONSES := by
  refine ⟨?_, ?_, ?_, (getRandomFallbackResponse_cases r).1⟩ <;>
    simp [generateStreamingResponse, generateResponse, h]

/-- Witness for C5's amended statement on the empty transcript. -/
theorem c5_amended_witness :
    generateStreamingResponse "" (.success ["x"]) 0 =
      ([getRandomFallbackResponse 0], Except.ok (getRandomFallbackResponse 0)) ∧
    generateStreamingResponse "" (.success ["x"]) 0 =
      generateStreamingResponse "" (.failure [] "boom") 0 ∧
    generateResponse "" (.error "boom") 0 = Except.ok (getRandomFallbackResponse 0) ∧
    getRandomFallbackResponse 0 ∈ FALLBACK_RESPONSES :=
  c5_amended "" (.success ["x"]) (.failure [] "boom") (.error "boom") 0 rfl

/-! ### Non-empty callback emissions (claim C9) -/

theorem mem_dropWhile_of_not {α : Type} {p : α → Bool} {c : α} :
    ∀ {l : List α}, c ∈ l → p c = false → c ∈ l.dropWhile p := by
  intro l
  induction l with
  | nil => intro h _; cases h
  | cons a t ih =>
    intro hc hp
    by_cases ha : p a
    · rw [List.dropWhile_cons_of_pos ha]
      rcases List.mem_cons.mp hc with rfl | hct
      · rw [hp] at ha; cases ha
      · exact ih hct hp
    · rw [List.dropWhile_cons_of_neg ha]
      exact hc

theorem dropWhile_head_not {α : Type} {p : α → Bool} :
    ∀ {l : List α} {c : α} {t : List α}, l.dropWhile p = c :: t → p c = false := by
  intro l
  induction l with
  | nil => intro c t h; cases h
  | cons a t' ih =>
    intro c t h
    by_cases ha : p a
    · rw [List.dropWhile_cons_of_pos ha] at h
      exact ih h
    · rw [List.dropWhile_cons_of_neg ha] at h
      cases h
      simpa using ha

theorem trimChars_ne_nil_of_mem {c : Char} {l : List Char}
    (hc : c ∈ l) (hp : isJsWs c = false) : trimChars l ≠ [] := by
  unfold trimChars
  intro h
  rw [List.reverse_eq_nil_iff, List.dropWhile_eq_nil_iff] at h
  have h1 : c ∈ (l.dropWhile isJsWs).reverse :=
    List.mem_reverse.mpr (mem_dropWhile_of_not hc hp)
  have := h c h1
  rw [hp] at this
  cases this

theorem trimChars_has_nonws {l : List Char} (h : trimChars l ≠ []) :
    ∃ c ∈ trimChars l, isJsWs c = false := by
  unfold trimChars at h ⊢
  rcases hd : (l.dropWhile isJsWs).reverse.dropWhile isJsWs with _ | ⟨d, u⟩
  · rw [hd] at h; simp at h
  · refine ⟨d, ?_, dropWhile_head_not hd⟩
    simp [hd]

theorem trimChars_trimChars_ne_nil {l : List Char} (h : trimChars l ≠ []) :
    trimChars (trimChars l) ≠ [] := by
  obtain ⟨c, hc, hw⟩ := trimChars_has_nonws h
  exact trimChars_ne_nil_of_mem hc hw

theorem string_mk_eq_empty_iff (l : List Char) : String.mk l = "" ↔ l = [] := by
  constructor
  · intro h
    have := congrArg String.data h
    simpa using this
  · intro h
    rw [h]

theorem jsTrim_mk_trim_ne (l : List Char) (h : String.mk (trimChars l) ≠ "") :
    jsTrim (String.mk (trimChars l)) ≠ "" := by
  have h1 : trimChars l ≠ [] := fun he => h ((string_mk_eq_empty_iff _).mpr he)
  have h2 : trimChars (trimChars l) ≠ [] := trimChars_trimChars_ne_nil h1
  simpa [jsTrim, string_mk_eq_empty_iff] using h2

/-- The cons-step of `extractAux`, with the let-bindings expanded. -/
theorem extractAux_cons_eq (skip : Bool) (seg : List Char) (c : Char) (rest : List Char) :
    extractAux skip seg (c :: rest) =
      if skip && isJsWs c then extractAux true seg rest
      else if isSentenceTerm c && startsWsOrEnd rest then
        (if String.mk (trimChars (seg.reverse ++ c :: rest.takeWhile isJsWs)) == "" then
            (extractAux true [] rest).1
          else
            String.mk (trimChars (seg.reverse ++ c :: rest.takeWhile isJsWs)) ::
              (extractAux true [] rest).1,
         (extractAux true [] rest).2)
      else extractAux false (c :: seg) rest := rfl

/-- `generateStreamingResponse` on a successful stream, unfolded. -/
theorem gsr_success_eq (transcript : String) (chunks : List String) (r : Nat) :
    generateStreamingResponse transcript (.success chunks) r =
      if jsTrim transcript == "" then
        ([getRandomFallbackResponse r], Except.ok (getRandomFallbackResponse r))
      else (streamEmits chunks, Except.ok (String.join chunks)) := rfl

/-- `generateStreamingResponse` on a stream that throws, unfolded. -/
theorem gsr_failure_eq (transcript : String) (chunks : List String) (msg : String) (r : Nat) :
    generateStreamingResponse transcript (.failure chunks msg) r =
      if jsTrim transcript == "" then
        ([getRandomFallbackResponse r], Except.ok (getRandomFallbackResponse r))
      else ((processChunks chunks "").1, Except.error msg) := rfl

theorem extractAux_mem_ne :
    ∀ (l : List Char) (skip : Bool) (seg : List Char) (s : String),
      s ∈ (extractAux skip seg l).1 → s ≠ "" ∧ jsTrim s ≠ "" := by
  intro l
  induction l with
  | nil =>
    intro skip seg s hs
    simp [extractAux] at hs
  | cons c rest ih =>
    intro skip seg s hs
    rw [extractAux_cons_eq] at hs
    by_cases h1 : (skip && isJsWs c) = true
    · rw [if_pos h1] at hs
      exact ih true seg s hs
    · rw [if_neg h1] at hs
      by_cases h2 : (isSentenceTerm c && startsWsOrEnd rest) = true
      · rw [if_pos h2] at hs
        by_cases h3 : (String.mk (trimChars (seg.reverse ++ c :: rest.takeWhile isJsWs)) == "") = true
        · rw [if_pos h3] at hs
          exact ih true [] s hs
        · rw [if_neg h3] at hs
          rcases List.mem_cons.mp hs with rfl | hs2
          · have hne : String.mk (trimChars (seg.reverse ++ c :: rest.takeWhile isJsWs)) ≠ "" := by
              simpa using h3
            exact ⟨hne, jsTrim_mk_trim_ne _ hne⟩
          · exact ih true [] s hs2
      · rw [if_neg h2] at hs
        exact ih false (c :: seg) s hs

theorem processChunks_mem_ne :
    ∀ (chunks : List String) (buf : String) (s : String),
      s ∈ (processChunks chunks buf).1 → s ≠ "" ∧ jsTrim s ≠ "" := by
  intro chunks
  induction chunks with
  | nil =>
    intro buf s hs
    simp [processChunks] at hs
  | cons ch chs ih =>
    intro buf s hs
    rw [processChunks] at hs
    rcases List.mem_append.mp hs with h | h
    · exact extractAux_mem_ne _ false [] s h
    · exact ih _ s h

theorem streamEmits_mem_ne (chunks : List String) (s : String)
    (hs : s ∈ streamEmits chunks) : s ≠ "" ∧ jsTrim s ≠ "" := by
  rw [streamEmits] at hs
  by_cases h : (jsTrim (processChunks chunks "").2 == "") = true
  · rw [if_pos h] at hs
    exact processChunks_mem_ne chunks "" s hs
  · rw [if_neg h] at hs
    rcases List.mem_append.mp hs with h1 | h1
    · exact processChunks_mem_ne chunks "" s h1
    · rcases List.mem_singleton.mp h1 with rfl
      have hne : jsTrim (processChunks chunks "").2 ≠ "" := by simpa using h
      refine ⟨hne, ?_⟩
      have heq : jsTrim (processChunks chunks "").2 =
          String.mk (trimChars ((processChunks chunks "").2).data) := rfl
      rw [heq] at hne ⊢
      exact jsTrim_mk_trim_ne _ hne

theorem gsr_mem_ne (transcript : String) (att : StreamAttempt) (r : Nat) (s : String)
    (hs : s ∈ (generateStreamingResponse transcript att r).1) :
    s ≠ "" ∧ jsTrim s ≠ "" := by
  cases att with
  | success chunks =>
    rw [gsr_success_eq] at hs
    by_cases hjt : (jsTrim transcript == "") = true
    · rw [if_pos hjt] at hs
      rcases List.mem_singleton.mp hs with rfl
      exact ⟨(getRandomFallbackResponse_cases r).2.1, (getRandomFallbackResponse_cases r).2.2⟩
    · rw [if_neg hjt] at hs
      exact streamEmits_mem_ne chunks s hs
  | failure chunks msg =>
    rw [gsr_failure_eq] at hs
    by_cases hjt : (jsTrim transcript == "") = true
    · rw [if_pos hjt] at hs
      rcases List.mem_singleton.mp hs with rfl
      exact ⟨(getRandomFallbackResponse_cases r).2.1, (getRandomFallbackResponse_cases r).2.2⟩
    · rw [if_neg hjt] at hs
      exact processChunks_mem_ne chunks "" s hs

theorem gsrwrAux_mem_ne (transcript : String) (oracle : Nat → StreamAttempt)
    (rs : Nat → Nat) (r : Nat) :
    ∀ (fuel attempt : Nat) (s : String),
      s ∈ (generateStreamingResponseWithRetryAux transcript oracle rs r attempt fuel).1 →
      s ≠ "" ∧ jsTrim s ≠ "" := by
  intro fuel
  induction fuel with
  | zero =>
    intro attempt s hs
    rcases List.mem_singleton.mp hs with rfl
    exact ⟨(getRandomFallbackResponse_cases r).2.1, (getRandomFallbackResponse_cases r).2.2⟩
  | succ n ih =>
    intro attempt s hs
    rw [generateStreamingResponseWithRetryAux] at hs
    rcases hout : (generateStreamingResponse transcript (oracle attempt) (rs attempt)).2 with msg | t
    swap
    · simp only [hout] at hs
      exact gsr_mem_ne transcript (oracle attempt) (rs attempt) s hs
    · by_cases hret : isRetryableError msg = true
      · simp only [hout, hret, if_true] at hs
        rcases List.mem_append.mp hs with h | h
        · exact gsr_mem_ne transcript (oracle attempt) (rs attempt) s h
        · exact ih (attempt + 1) s h
      · have hret2 : isRetryableError msg = false := by simpa using hret
        simp only [hout, hret2] at hs
        rcases List.mem_append.mp hs with h | h
        · exact gsr_mem_ne transcript (oracle attempt) (rs attempt) s h
        · rcases List.mem_singleton.mp h with rfl
          exact ⟨(getRandomFallbackResponse_cases r).2.1, (getRandomFallbackResponse_cases r).2.2⟩

/-- C9: every string passed to the sentence callback by
`generateStreamingResponse` and `generateStreamingResponseWithRetry`, on
every code path — extracted sentences, the trailing remainder, the
empty-transcript fallback, and the retries-exhausted fallback — is
non-empty, and not whitespace-only either. -/
theorem c9_callback_nonempty :
    (∀ (transcript : String) (att : StreamAttempt) (r : Nat) (s : String),
      s ∈ (generateStreamingResponse transcript att r).1 → s ≠ "" ∧ jsTrim s ≠ "") ∧
    (∀ (transcript : String) (oracle : Nat → StreamAttempt) (rs : Nat → Nat)
        (r maxRetries : Nat) (s : String),
      s ∈ (generateStreamingResponseWithRetry transcript oracle rs r maxRetries).1 →
      s ≠ "" ∧ jsTrim s ≠ "") :=
  ⟨gsr_mem_ne, fun transcript oracle rs r maxRetries s hs =>
    gsrwrAux_mem_ne transcript oracle rs r (maxRetries + 1) 0 s hs⟩

/-- Witness for C9 at a concrete extracted sentence. -/
theorem c9_callback_nonempty_witness : ("Hi there." : String) ≠ "" ∧ jsTrim "Hi there." ≠ "" :=
  c9_callback_nonempty.1 "x" (.success ["Hi there. ok"]) 0 "Hi there." (by decide)

/-! ### Sentence segmentation refinement (claim C3) -/

/-- Unfolding `specScan` on the empty buffer. -/
theorem specScan_nil (seg : List Char) : specScan seg [] = ([], seg) := by
  rw [specScan]

/-- Unfolding `specScan` on a buffer head. -/
theorem specScan_cons (seg : List Char) (c : Char) (rest : List Char) :
    specScan seg (c :: rest) =
      if isSentenceTerm c && startsWsOrEnd rest then
        (String.mk (trimChars (seg ++ [c])) :: (specScan [] (rest.dropWhile isJsWs)).1,
         (specScan [] (rest.dropWhile isJsWs)).2)
      else specScan (seg ++ [c]) rest := by
  rw [specScan]

/-- Sentence terminators are not whitespace. -/
theorem term_not_ws {c : Char} (h : isSentenceTerm c = true) : isJsWs c = false := by
  simp only [isSentenceTerm, Bool.or_eq_true, beq_iff_eq] at h
  rcases h with (h | h) | h <;> subst h <;> decide

/-- Trimming a segment that ends in a non-whitespace character followed by
only whitespace: the trailing whitespace disappears and the front is
`dropWhile`d. -/
theorem trim_seg (x w : List Char) (c : Char) (hc : isJsWs c = false)
    (hw : ∀ d ∈ w, isJsWs d = true) :
    trimChars (x ++ c :: w) = x.dropWhile isJsWs ++ [c] := by
  have hcn : ¬ isJsWs c := by simp [hc]
  have h1 : (x ++ c :: w).dropWhile isJsWs = x.dropWhile isJsWs ++ c :: w := by
    rw [List.dropWhile_append]
    by_cases he : (x.dropWhile isJsWs).isEmpty
    · have hx : x.dropWhile isJsWs = [] := by simpa using he
      rw [if_pos he, List.dropWhile_cons_of_neg hcn, hx, List.nil_append]
    · rw [if_neg he]
  have hwrev : ∀ d ∈ w.reverse, isJsWs d = true := fun d hd => hw d (List.mem_reverse.mp hd)
  unfold trimChars
  rw [h1, List.reverse_append, List.reverse_cons, List.append_assoc,
    List.dropWhile_append_of_pos hwrev, List.singleton_append,
    List.dropWhile_cons_of_neg hcn, List.reverse_cons, List.reverse_reverse]

/-- The skip mode of `extractAux` consumes exactly the whitespace run the
regex match swallowed. -/
theorem extractAux_skip_true (l : List Char) :
    extractAux true [] l = extractAux false [] (l.dropWhile isJsWs) := by
  induction l with
  | nil => rfl
  | cons c rest ih =>
    by_cases hw : isJsWs c = true
    · rw [extractAux_cons_eq, List.dropWhile_cons_of_pos hw]
      simp only [hw, Bool.and_true, if_true]
      exact ih
    · rw [List.dropWhile_cons_of_neg (by simpa using hw),
        extractAux_cons_eq, extractAux_cons_eq]
      simp only [hw, Bool.and_false, Bool.false_and, if_neg (by simp : ¬(false = true))]

/-- When the spec scan emits nothing, the remainder is the whole input. -/
theorem specScan_fst_nil :
    ∀ (n : Nat) (l : List Char), l.length ≤ n → ∀ (seg : List Char),
      (specScan seg l).1 = [] → (specScan seg l).2 = seg ++ l := by
  intro n
  induction n with
  | zero =>
    intro l hl seg h
    have : l = [] := List.length_eq_zero.mp (Nat.le_zero.mp hl)
    subst this
    rw [specScan_nil]
    simp
  | succ n ih =>
    intro l hl seg h
    cases l with
    | nil =>
      rw [specScan_nil]
      simp
    | cons c rest =>
      rw [specScan_cons] at h ⊢
      by_cases h2 : (isSentenceTerm c && startsWsOrEnd rest) = true
      · rw [if_pos h2] at h
        cases h
      · rw [if_neg h2] at h ⊢
        have hlen : rest.length ≤ n := by
          simpa using Nat.le_of_succ_le_succ (by simpa using hl)
        have := ih rest hlen (seg ++ [c]) h
        rw [this, List.append_assoc, List.singleton_append]

/-- The regex-exec scan of the source equals the specification-side scan. -/
theorem extractAux_eq_specScan :
    ∀ (n : Nat) (l : List Char), l.length ≤ n → ∀ (seg : List Char),
      extractAux false seg l = specScan seg.reverse l := by
  intro n
  induction n with
  | zero =>
    intro l hl seg
    have : l = [] := List.length_eq_zero.mp (Nat.le_zero.mp hl)
    subst this
    rw [specScan_nil]
    rfl
  | succ n ih =>
    intro l hl seg
    cases l with
    | nil =>
      rw [specScan_nil]
      rfl
    | cons c rest =>
      have hlen : rest.length ≤ n := by
        simpa using Nat.le_of_succ_le_succ (by simpa using hl)
      rw [extractAux_cons_eq, specScan_cons]
      simp only [Bool.false_and, if_neg (by simp : ¬(false = true))]
      by_cases h2 : (isSentenceTerm c && startsWsOrEnd rest) = true
      · rw [if_pos h2, if_pos h2]
        have hc : isJsWs c = false := term_not_ws (Bool.and_elim_left h2)
        have hwtw : ∀ d ∈ rest.takeWhile isJsWs, isJsWs d = true :=
          fun d hd => List.mem_takeWhile_imp hd
        have hs1 : trimChars (seg.reverse ++ c :: rest.takeWhile isJsWs) =
            seg.reverse.dropWhile isJsWs ++ [c] := trim_seg _ _ c hc hwtw
        have hs2 : trimChars (seg.reverse ++ [c]) =
            seg.reverse.dropWhile isJsWs ++ [c] := by
          have := trim_seg seg.reverse [] c hc (by intro d hd; cases hd)
          simpa using this
        have hguard : (String.mk (trimChars (seg.reverse ++ c :: rest.takeWhile isJsWs)) == "") = false := by
          rw [hs1]
          simp [string_mk_eq_empty_iff]
        have hrec : extractAux true [] rest = specScan [] (rest.dropWhile isJsWs) := by
          rw [extractAux_skip_true]
          have hlen2 : (rest.dropWhile isJsWs).length ≤ n :=
            le_trans (List.dropWhile_sublist isJsWs).length_le hlen
          have := ih (rest.dropWhile isJsWs) hlen2 []
          simpa using this
        rw [hguard]
        simp only [Bool.false_eq_true, if_false, hrec, hs1, hs2]
      · rw [if_neg h2, if_neg h2]
        have := ih rest hlen (c :: seg)
        rw [this, List.reverse_cons]

/-- `extractCompleteSentences` against the spec-side scan. -/
theorem extractCompleteSentences_eq_spec (buffer : String) :
    extractCompleteSentences buffer =
      ((specScan [] buffer.data).1, String.mk (specScan [] buffer.data).2) := by
  unfold extractCompleteSentences
  rw [show (extractAux false [] buffer.data) = specScan [] buffer.data from
    extractAux_eq_specScan buffer.data.length buffer.data le_rfl []]

/-- The chunk loop against the spec-side accumulating process. -/
theorem processChunks_eq_spec :
    ∀ (chunks : List String) (buf : String),
      processChunks chunks buf =
        ((specProcess chunks buf.data).1, String.mk (specProcess chunks buf.data).2) := by
  intro chunks
  induction chunks with
  | nil =>
    intro buf
    rw [processChunks, specProcess]
  | cons ch chs ih =>
    intro buf
    rw [processChunks, specProcess]
    have hdata : (buf ++ ch).data = buf.data ++ ch.data := String.data_append buf ch
    have hp : extractCompleteSentences (buf ++ ch) =
        ((specScan [] (buf.data ++ ch.data)).1, String.mk (specScan [] (buf.data ++ ch.data)).2) := by
      rw [extractCompleteSentences_eq_spec, hdata]
    rw [hp]
    by_cases hq : (specScan [] (buf.data ++ ch.data)).1 = []
    · have hq2 : (specScan [] (buf.data ++ ch.data)).2 = buf.data ++ ch.data := by
        have := specScan_fst_nil (buf.data ++ ch.data).length (buf.data ++ ch.data) le_rfl [] hq
        simpa using this
      simp only [hq, List.length_nil, Nat.lt_irrefl, if_false, hq2]
      rw [ih (buf ++ ch), hdata]
    · have hlen : 0 < (specScan [] (buf.data ++ ch.data)).1.length :=
        List.length_pos.mpr hq
      simp only [hlen, if_true]
      rw [ih (String.mk (specScan [] (buf.data ++ ch.data)).2)]

/-- The emissions of a successful stream are exactly the spec-described
segmentation. -/
theorem streamEmits_eq_spec (chunks : List String) :
    streamEmits chunks = specStreamEmits chunks := by
  rw [streamEmits, specStreamEmits]
  rw [show processChunks chunks "" =
      ((specProcess chunks []).1, String.mk (specProcess chunks []).2) by
    rw [processChunks_eq_spec chunks ""]]
  rfl

/-- C3: the streaming generator emits sentences by scanning the
accumulating buffer for `.`, `!` or `?` followed by whitespace or
end-of-buffer, emitting each trimmed segment through the terminator in
order, with the trailing non-empty remainder emitted once, trimmed, after
the stream ends (equality with the spec-modelled segmentation); in
particular the chunks `"Hi "`, `"there. How "`, `"are you?"` produce
exactly the two callbacks `"Hi there."` then `"How are you?"`. -/
theorem c3_sentence_segmentation :
    (∀ chunks, streamEmits chunks = specStreamEmits chunks) ∧
    streamEmits ["Hi ", "there. How ", "are you?"] = ["Hi there.", "How are you?"] :=
  ⟨streamEmits_eq_spec, by decide⟩
